import Mathlib

/-
  Verification of the greenhouse cooperative scheduler core against its
  natural-language specification.

  Shallow embedding conventions:
  * greenlets (Tasks) are identified by natural numbers;
  * unix timestamps and intervals are integers (Time := Int), so that
    remaining-time arithmetic can go negative;
  * the process-wide scheduler state (greenhouse/scheduler.py, `state`) is the
    structure `Sched` below; the Python set `state.awoken_from_events` is
    modelled as a duplicate-free list;
  * fallible operations return Except values.
-/

set_option maxRecDepth 4000

namespace Greenhouse

abbrev Time := Int

abbrev Glet := Nat

/-- The scheduler module state (scheduler.py lines 19 to 34):
`to_run` is the deque of greenlets lined up to run right away,
`paused` holds greenlets that executed a simple cooperative yield,
`timed_paused` holds (wake-time, greenlet) pairs kept sorted,
`awoken_from_events` collects greenlets woken by triggered events (a set). -/
structure Sched where
  to_run : List Glet
  paused : List Glet
  timed_paused : List (Time × Glet)
  awoken_from_events : List Glet
  deriving Repr, DecidableEq

/-- Lexicographic strict order on (timestamp, greenlet) pairs, as Python 2
compares the tuples stored in `state.timed_paused`. -/
def tgLt (a b : Time × Glet) : Prop := a.1 < b.1 ∨ (a.1 = b.1 ∧ a.2 < b.2)

instance (a b : Time × Glet) : Decidable (tgLt a b) := by
  unfold tgLt; infer_instance

/-- Lexicographic non-strict order on (timestamp, greenlet) pairs. -/
def tgLe (a b : Time × Glet) : Prop := a.1 < b.1 ∨ (a.1 = b.1 ∧ a.2 ≤ b.2)

instance (a b : Time × Glet) : Decidable (tgLe a b) := by
  unfold tgLe; infer_instance

/-- bisect.insort on the sorted list `state.timed_paused`: insert `e` before
the first element strictly above it (so after any ties), keeping the list
sorted. -/
def insort (e : Time × Glet) : List (Time × Glet) → List (Time × Glet)
  | [] => [e]
  | x :: xs => if tgLt e x then e :: x :: xs else x :: insort e xs

/-- scheduler.schedule (lines 83 to 101): append the greenlet to
`state.paused`. -/
def schedule (g : Glet) (s : Sched) : Sched :=
  { s with paused := s.paused ++ [g] }

/-- scheduler.schedule_at (lines 103 to 122): bisect.insort the
(unixtime, greenlet) pair into `state.timed_paused`. -/
def schedule_at (unixtime : Time) (g : Glet) (s : Sched) : Sched :=
  { s with timed_paused := insort (unixtime, g) s.timed_paused }

/-- scheduler.schedule_to_top (lines 171 to 192): appendleft the greenlet
onto `state.to_run`, skipping to the front of the line. -/
def schedule_to_top (g : Glet) (s : Sched) : Sched :=
  { s with to_run := g :: s.to_run }

/-- bisect.bisect(state.timed_paused, (time.time(), None)) on the sorted
pending list: the probe (now, None) sits above exactly the entries with
timestamp strictly below now, because Python 2 orders None below every
greenlet; on a sorted list bisect therefore returns the length of the maximal
initial run of entries with timestamp strictly below now. -/
def bisect_at (now : Time) (l : List (Time × Glet)) : Nat :=
  (l.takeWhile (fun e => decide (e.1 < now))).length

/-- scheduler._check_paused (lines 58 to 65): move the timed-paused entries
below the bisect point into `to_run`, and unless `skip_simple` also move all
of `paused` in after them. -/
def check_paused (now : Time) (skip_simple : Bool) (s : Sched) : Sched :=
  let idx := bisect_at now s.timed_paused
  { s with
    to_run := s.to_run ++ (s.timed_paused.take idx).map Prod.snd
        ++ (if skip_simple then [] else s.paused),
    timed_paused := s.timed_paused.drop idx,
    paused := if skip_simple then s.paused else [] }

/-- Modelled from the spec: util.Event.set (util.py is not under src/) wakes
the tasks currently blocked in wait() by adding them to
`state.awoken_from_events`; since that is a Python set, a task already present
is not added again. -/
def event_wake (g : Glet) (s : Sched) : Sched :=
  { s with awoken_from_events :=
      if g ∈ s.awoken_from_events then s.awoken_from_events
      else s.awoken_from_events ++ [g] }

/-- The tail of scheduler._hit_poller (lines 55 to 56):
state.to_run.extend(state.awoken_from_events); state.awoken_from_events.clear(). -/
def hit_poller_transfer (s : Sched) : Sched :=
  { s with to_run := s.to_run ++ s.awoken_from_events,
           awoken_from_events := [] }

/-- The scheduler operations that can interleave between dispatches: the
public scheduling calls, event-driven wakeups, the poller-to-ready transfer,
the timed/paused promotion, and popping one greenlet off the front of
`to_run` to give it control (mainloop line 217). -/
inductive Op
  | sched (g : Glet)
  | schedAt (t : Time) (g : Glet)
  | schedTop (g : Glet)
  | checkPaused (now : Time) (skip : Bool)
  | eventWake (g : Glet)
  | pollerTransfer
  | dispatch
  deriving Repr, DecidableEq

/-- The greenlets an operation takes as an argument. -/
def opTouches : Op → List Glet
  | .sched g => [g]
  | .schedAt _ g => [g]
  | .schedTop g => [g]
  | .eventWake g => [g]
  | _ => []

/-- One scheduler operation acting on the state, recording each dispatched
greenlet in a log. Dispatching from an empty ready queue does nothing (the
real mainloop polls instead). A log entry means the greenlet received control
and ran its whole slice before the next entry ran, since the system is a
single thread and control transfer is cooperative. -/
def stepOp : Op → Sched × List Glet → Sched × List Glet
  | .sched g, (s, log) => (schedule g s, log)
  | .schedAt t g, (s, log) => (schedule_at t g s, log)
  | .schedTop g, (s, log) => (schedule_to_top g s, log)
  | .checkPaused now skip, (s, log) => (check_paused now skip s, log)
  | .eventWake g, (s, log) => (event_wake g s, log)
  | .pollerTransfer, (s, log) => (hit_poller_transfer s, log)
  | .dispatch, (s, log) =>
      match s.to_run with
      | [] => (s, log)
      | g :: rest => ({ s with to_run := rest }, log ++ [g])

/-- Run a sequence of scheduler operations. -/
def runOps (ops : List Op) (p : Sched × List Glet) : Sched × List Glet :=
  ops.foldl (fun q op => stepOp op q) p

/-- A greenlet that appears nowhere in the scheduler state. -/
def absent (x : Glet) (s : Sched) : Prop :=
  x ∉ s.to_run ∧ x ∉ s.paused ∧ x ∉ s.timed_paused.map Prod.snd ∧
    x ∉ s.awoken_from_events

instance (x : Glet) (s : Sched) : Decidable (absent x s) := by
  unfold absent; infer_instance

/-- A greenlet value as seen by schedule_recurring: its identity plus its
`dead` flag. -/
structure Greenlet where
  id : Glet
  dead : Bool
  deriving Repr, DecidableEq

inductive SchedErr
  | deadGreenletTypeError
  deriving Repr, DecidableEq

/-- scheduler.schedule_recurring (lines 131 to 169) called with a greenlet
target: `starting_at = starting_at or time.time()` (0 is falsy), then, since
the target is a greenlet, line 154 raises TypeError when the greenlet is
dead, before anything is scheduled; otherwise a fresh wrapper greenlet for
run_and_schedule_one is scheduled at firstrun = starting_at + interval. The
second component is the raised exception, if any; on an exception the state
in the first component is returned untouched. -/
def schedule_recurring_glet (interval : Time) (target : Greenlet)
    (starting_at now : Time) (wrapper : Glet) (s : Sched) :
    Sched × Option SchedErr :=
  let start := if starting_at = 0 then now else starting_at
  if target.dead then (s, some SchedErr.deadGreenletTypeError)
  else (schedule_at (start + interval) wrapper s, none)

/-- The recurring-run bookkeeping of scheduler.schedule_recurring (lines 158
to 167): invocation 0 of run_and_schedule_one is scheduled at
firstrun = starting_at + interval with tstamp argument firstrun; invocation
j runs the target and then (line 163) schedules invocation j+1 at time
tstamp_j with tstamp argument tstamp_j + interval. The pair returned is
(scheduled wake time of invocation j, tstamp argument of invocation j). -/
def recurringSched (interval starting_at : Time) : Nat → Time × Time
  | 0 => (starting_at + interval, starting_at + interval)
  | j + 1 =>
      let prev := recurringSched interval starting_at j
      (prev.2, prev.2 + interval)

/-- The guard on line 161 of scheduler.py: `if not maxtimes or count < maxtimes`
decides whether wrapper invocation number `count` calls the target and
re-arms the next invocation. -/
def recurringRuns (maxtimes count : Nat) : Bool :=
  maxtimes == 0 || decide (count < maxtimes)

/-- A waiter object (socket or file) as referenced from
state.descriptormap: its identity and its `_closed` flag. -/
structure Waiter where
  id : Nat
  closed : Bool
  deriving Repr, DecidableEq

/-- A weak reference as stored in state.descriptormap: calling it yields the
target, or none once the target has been collected. -/
structure WeakRef where
  target : Option Waiter
  deriving Repr, DecidableEq

/-- The inner loop of scheduler._hit_poller (lines 41 to 46):
`for index, weak in enumerate(state.descriptormap[fd])` keeps its own
counter and on each step reads the element at that index of the CURRENT
list, stopping once the index runs past the end; a stale entry (collected
target, or waiter marked closed) is popped at the current index; a live
waiter is appended to socks. The fuel argument only bounds the number of
iterations; pruneScan passes the initial list length, which always suffices
because the index grows by one per step while the list never grows. -/
def pruneScanAux : Nat → List WeakRef → Nat → List Waiter →
    List WeakRef × List Waiter
  | 0, l, _, socks => (l, socks)
  | fuel + 1, l, i, socks =>
      match l.get? i with
      | none => (l, socks)
      | some w =>
          match w.target with
          | none => pruneScanAux fuel (l.eraseIdx i) (i + 1) socks
          | some sock =>
              if sock.closed then
                pruneScanAux fuel (l.eraseIdx i) (i + 1) socks
              else
                pruneScanAux fuel l (i + 1) (socks ++ [sock])

/-- The registry scan for one file descriptor in _hit_poller. -/
def pruneScan (l : List WeakRef) : List WeakRef × List Waiter :=
  pruneScanAux l.length l 0 []

/-- Processing of one (fd, eventmap) pair in _hit_poller (lines 40 to 54):
prune the registered weak references, then fire the read Signal of every
collected live waiter when the IN bit is set, and the write Signal of every
collected live waiter when the OUT bit is set (set() immediately followed by
clear(): one edge per poll tick). Returns the descriptor list that remains
registered and the waiter ids whose read and write Signals fired. -/
def hit_poller_fd (inBit outBit : Bool) (l : List WeakRef) :
    List WeakRef × List Nat × List Nat :=
  let pruned := pruneScan l
  (pruned.1,
    (if inBit then pruned.2.map Waiter.id else []),
    (if outBit then pruned.2.map Waiter.id else []))

/- Embedding of greenhouse/io/ssl.py: the suspend/resume retry pattern. -/

/-- The two Signals an SSLSocket owns. -/
inductive SigKind
  | readable
  | writable
  deriving Repr, DecidableEq

/-- What SSLSocket._wait_event (ssl.py lines 294 to 297) sets up from its
`write` flag before blocking: the poller interest mask it registers is
ERRMASK | (OUTMASK if write else INMASK), and the Signal it waits on is
self._writable if write else self._readable. -/
structure WaitEventSetup where
  maskIn : Bool
  maskOut : Bool
  maskErr : Bool
  event : SigKind
  deriving Repr, DecidableEq

def wait_event_setup (write : Bool) : WaitEventSetup :=
  { maskIn := !write, maskOut := write, maskErr := true,
    event := if write then SigKind.writable else SigKind.readable }

/-- The ways one attempt of the underlying non-blocking SSL operation can
end: success, SSL_ERROR_WANT_READ, SSL_ERROR_WANT_WRITE, or any other
SSLError identified by its error code. -/
inductive Attempt (α : Type)
  | ok (v : α)
  | wantRead
  | wantWrite
  | otherError (code : Nat)
  deriving Repr, DecidableEq

/-- How a run of the function built by SSLSocket._with_retry (lines 316 to
332) can end. -/
inductive RetryResult (α : Type)
  | ok (v : α)
  | timedOut
  | propagated (code : Nat)
  | traceEnded
  deriving Repr, DecidableEq

/-- The _timeout constructor (ssl.py lines 336 to 340): the absolute
deadline is computed once, at construction time, from the caller-supplied
timeout; a timeout of None means no deadline. -/
def timeout_init (timeout : Option Time) (now : Time) : Option Time :=
  timeout.map (fun t => now + t)

/-- The `now` property of _timeout (ssl.py lines 342 to 348): with no
deadline it returns None; otherwise it recomputes the remaining time
against the stored absolute deadline and raises the timeout exception when
the remaining time is strictly negative. -/
def timeout_now (deadline : Option Time) (now : Time) :
    Except Unit (Option Time) :=
  match deadline with
  | none => Except.ok none
  | some d =>
      if d - now < 0 then Except.error () else Except.ok (some (d - now))

/-- The `while 1` loop of the function f built by _with_retry, driven by a
trace of attempts: entry k of the trace gives the clock value at attempt k
and the outcome func() produces there. On SSL_ERROR_WANT_READ the code
calls self._wait_event(tout.now); on SSL_ERROR_WANT_WRITE it calls
self._wait_event(tout.now, write=False) — both, per the source, with the
write flag False. Evaluating tout.now can raise the timeout error, ending
the run. Each performed wait is recorded as (write flag, time of the
blocked attempt, remaining time handed to the wait); in this model every
wait wakes successfully (its Signal fires), after which the loop retries.
Any other SSLError propagates unchanged. -/
def with_retry_go {α : Type} (deadline : Option Time) :
    List (Time × Attempt α) → RetryResult α × List (Bool × Time × Option Time)
  | [] => (RetryResult.traceEnded, [])
  | (t, a) :: rest =>
      match a with
      | Attempt.ok v => (RetryResult.ok v, [])
      | Attempt.otherError code => (RetryResult.propagated code, [])
      | Attempt.wantRead =>
          match timeout_now deadline t with
          | Except.error _ => (RetryResult.timedOut, [])
          | Except.ok remaining =>
              let next := with_retry_go deadline rest
              (next.1, (false, t, remaining) :: next.2)
      | Attempt.wantWrite =>
          match timeout_now deadline t with
          | Except.error _ => (RetryResult.timedOut, [])
          | Except.ok remaining =>
              let next := with_retry_go deadline rest
              (next.1, (false, t, remaining) :: next.2)

/-- The function f produced by _with_retry(func, timeout): a _timeout
object is created once per call of f (t0 is the clock at that moment),
fixing the absolute deadline, and the retry loop then runs. -/
def with_retry {α : Type} (timeout : Option Time) (t0 : Time)
    (trace : List (Time × Attempt α)) :
    RetryResult α × List (Bool × Time × Option Time) :=
  with_retry_go (timeout_init timeout t0) trace

/- Embedding of the exception-containment machinery (scheduler.py lines 13,
194 to 242). -/

/-- An entry of the module-level _exception_handlers list: a weak reference
to a handler. `alive` is whether weak() still returns the handler, `raises`
whether calling the handler itself raises an exception. -/
structure HandlerRef where
  id : Nat
  alive : Bool
  raises : Bool
  deriving Repr, DecidableEq

/-- An uncaught-exception triple (class, instance, traceback) as produced by
sys.exc_info(), identified abstractly. -/
structure ExcTriple where
  klass : Nat
  exc : Nat
  tb : Nat
  deriving Repr, DecidableEq

/-- scheduler._purge_exception_handlers (lines 234 to 237): collect the
indices of entries whose weak target is gone, in ascending order, then pop
them in reverse (descending-index) order. -/
def purge_exception_handlers (hs : List HandlerRef) : List HandlerRef :=
  (((hs.enum.filter (fun p => !p.2.alive)).map Prod.fst).reverse).foldl
    (fun l i => l.eraseIdx i) hs

/-- The body of the delivery loop in _consume_exception (line 228), without
its try/except: weak()(klass, exc, tb) delivers the triple if the weak
target is alive, raising afterwards if the handler itself raises; if the
target is gone, calling None raises a TypeError and nothing is delivered.
An error value carries the deliveries made before the raise. -/
def handler_call (h : HandlerRef) (t : ExcTriple) :
    Except (List (Nat × ExcTriple)) (List (Nat × ExcTriple)) :=
  if h.alive then
    (if h.raises then Except.error [(h.id, t)] else Except.ok [(h.id, t)])
  else Except.error []

/-- The for-loop of _consume_exception (lines 226 to 232): each iteration
runs handler_call inside `try ... except Exception: pass`, so an exception
outcome is squashed and iteration continues with the next handler. Returns
the deliveries made, in order. -/
def consume_loop (t : ExcTriple) : List HandlerRef → List (Nat × ExcTriple)
  | [] => []
  | h :: hs =>
      (match handler_call h t with
       | Except.ok ds => ds
       | Except.error ds => ds) ++ consume_loop t hs

/-- scheduler._consume_exception (lines 223 to 232): purge the handler list,
then deliver the triple to each remaining handler, squashing exceptions
raised by handlers. Returns the purged handler list and the deliveries. -/
def consume_exception (hs : List HandlerRef) (t : ExcTriple) :
    List HandlerRef × List (Nat × ExcTriple) :=
  (purge_exception_handlers hs,
    consume_loop t (purge_exception_handlers hs))

/-- The dispatch loop of scheduler.mainloop (lines 194 to 221) restricted to
a ready queue: each iteration pops one greenlet and switches to it; `behave`
tells whether that greenlet run raises an uncaught exception (some triple)
or yields normally (none); an uncaught exception is caught at the dispatch
boundary and routed to _consume_exception, and the loop continues with the
next ready greenlet either way. Returns the dispatch order and all
deliveries made. -/
def mainloop_steps (behave : Glet → Option ExcTriple) (hs : List HandlerRef) :
    List Glet → List Glet × List (Nat × ExcTriple)
  | [] => ([], [])
  | g :: rest =>
      let tail := mainloop_steps behave hs rest
      match behave g with
      | none => (g :: tail.1, tail.2)
      | some tr => (g :: tail.1, (consume_exception hs tr).2 ++ tail.2)

/-- A poll tick worth of Signal firings: util.Event.set runs once per
triggered event, each adding the greenlets it wakes to
state.awoken_from_events (modelled from the spec, util.py not being under
src/); gs lists the woken greenlets event by event, repetitions included. -/
def wake_all (gs : List Glet) (s : Sched) : Sched :=
  gs.foldl (fun s g => event_wake g s) s

/- FIFO ordering of the immediate scheduling path (C4). -/

/-- The occurrences of the two tracked greenlets in a queue, in order. -/
def abElems (A B : Glet) (l : List Glet) : List Glet :=
  l.filter (fun g => g == A || g == B)

/-- The virtual ready order of the scheduler state: the ready queue followed
by the simple-paused list (which _check_paused appends to the ready queue
wholesale, in order, behind any timed promotions, none of which concern the
tracked greenlets). -/
def queueView (s : Sched) : List Glet := s.to_run ++ s.paused

/-- The phase of the tracked pair (A, B) along a run: both still queued with
A ahead of B; A already dispatched and B still queued; or B dispatched,
in which case the log shows A strictly before the first occurrence of B. -/
def fifo_phase (A B : Glet) (q log : List Glet) : Prop :=
  (abElems A B q = [A, B] ∧ A ∉ log ∧ B ∉ log)
  ∨ (abElems A B q = [B] ∧ A ∈ log ∧ B ∉ log)
  ∨ (abElems A B q = [] ∧ ∃ pre suf, log = pre ++ B :: suf ∧ A ∈ pre ∧ B ∉ pre)

/-- Invariant tying the scheduler state to the dispatch log for the tracked
pair: neither tracked greenlet sits in the timed-pending list or the awoken
set, and the pair is in one of the three phases. -/
def fifo_inv (A B : Glet) (s : Sched) (log : List Glet) : Prop :=
  A ∉ s.timed_paused.map Prod.snd ∧ B ∉ s.timed_paused.map Prod.snd ∧
  A ∉ s.awoken_from_events ∧ B ∉ s.awoken_from_events ∧
  fifo_phase A B (queueView s) log

theorem runOps_nil (p : Sched × List Glet) : runOps [] p = p := rfl

theorem runOps_cons (op : Op) (ops : List Op) (p : Sched × List Glet) :
    runOps (op :: ops) p = runOps ops (stepOp op p) := rfl

/- Order facts about the lexicographic comparison used by timed_paused. -/

theorem tgLe_of_tgLt {a b : Time × Glet} (h : tgLt a b) : tgLe a b := by
  rcases h with h | ⟨h1, h2⟩
  · exact Or.inl h
  · exact Or.inr ⟨h1, Nat.le_of_lt h2⟩

theorem tgLe_of_not_tgLt {a b : Time × Glet} (h : ¬ tgLt a b) : tgLe b a := by
  unfold tgLt at h
  push_neg at h
  obtain ⟨h1, h2⟩ := h
  unfold tgLe
  rcases lt_or_eq_of_le h1 with hlt | heq
  · exact Or.inl hlt
  · exact Or.inr ⟨heq, h2 heq.symm⟩

theorem tgLe_trans {a b c : Time × Glet} (h1 : tgLe a b) (h2 : tgLe b c) :
    tgLe a c := by
  unfold tgLe at *
  rcases h1 with h1 | ⟨e1, le1⟩
  · rcases h2 with h2 | ⟨e2, le2⟩
    · exact Or.inl (lt_trans h1 h2)
    · exact Or.inl (by rw [← e2]; exact h1)
  · rcases h2 with h2 | ⟨e2, le2⟩
    · exact Or.inl (by rw [e1]; exact h2)
    · exact Or.inr ⟨e1.trans e2, le_trans le1 le2⟩

theorem mem_insort {b e : Time × Glet} {l : List (Time × Glet)} :
    b ∈ insort e l ↔ b = e ∨ b ∈ l := by
  induction l with
  | nil => simp [insort]
  | cons x xs ih =>
    by_cases hlt : tgLt e x
    · rw [insort, if_pos hlt]
      simp only [List.mem_cons]
    · rw [insort, if_neg hlt]
      simp only [List.mem_cons, ih]
      tauto

theorem insort_sorted (e : Time × Glet) (l : List (Time × Glet))
    (h : l.Sorted tgLe) : (insort e l).Sorted tgLe := by
  induction l with
  | nil => simp [insort, List.Sorted]
  | cons x xs ih =>
    rw [List.sorted_cons] at h
    obtain ⟨hx, hxs⟩ := h
    by_cases hlt : tgLt e x
    · rw [insort, if_pos hlt]
      rw [List.sorted_cons]
      refine ⟨?_, List.sorted_cons.2 ⟨hx, hxs⟩⟩
      intro b hb
      rcases List.mem_cons.1 hb with hb | hb
      · subst hb; exact tgLe_of_tgLt hlt
      · exact tgLe_trans (tgLe_of_tgLt hlt) (hx b hb)
    · rw [insort, if_neg hlt]
      rw [List.sorted_cons]
      refine ⟨?_, ih hxs⟩
      intro b hb
      rcases mem_insort.1 hb with hb | hb
      · subst hb; exact tgLe_of_not_tgLt hlt
      · exact hx b hb

theorem timed_sorted_drop (n : Nat) {l : List (Time × Glet)}
    (h : l.Sorted tgLe) : (l.drop n).Sorted tgLe :=
  List.Pairwise.sublist (List.drop_sublist n l) h

/- On a sorted pending list, the bisect split is exactly the split between
entries with timestamp strictly below now and the rest. -/

theorem takeWhile_eq_filter_of_sorted (now : Time) (l : List (Time × Glet))
    (h : l.Sorted tgLe) :
    l.takeWhile (fun e => decide (e.1 < now))
      = l.filter (fun e => decide (e.1 < now)) := by
  induction l with
  | nil => rfl
  | cons x xs ih =>
    rw [List.sorted_cons] at h
    obtain ⟨hx, hxs⟩ := h
    by_cases hp : x.1 < now
    · have hd : decide (x.1 < now) = true := by simpa using hp
      rw [List.takeWhile_cons, List.filter_cons, hd]
      simp [ih hxs]
    · have hd : decide (x.1 < now) = false := by simpa using hp
      rw [List.takeWhile_cons, List.filter_cons, hd]
      simp only [Bool.false_eq_true, if_false]
      symm
      rw [List.filter_eq_nil_iff]
      intro a ha
      have hle := hx a ha
      simp only [decide_eq_true_eq, not_lt]
      rcases hle with hlt | ⟨heq, _⟩
      · exact le_of_lt (lt_of_le_of_lt (not_lt.1 hp) hlt)
      · exact heq ▸ not_lt.1 hp

theorem dropWhile_eq_filter_of_sorted (now : Time) (l : List (Time × Glet))
    (h : l.Sorted tgLe) :
    l.dropWhile (fun e => decide (e.1 < now))
      = l.filter (fun e => !decide (e.1 < now)) := by
  induction l with
  | nil => rfl
  | cons x xs ih =>
    rw [List.sorted_cons] at h
    obtain ⟨hx, hxs⟩ := h
    by_cases hp : x.1 < now
    · have hd : decide (x.1 < now) = true := by simpa using hp
      rw [List.dropWhile_cons, List.filter_cons, hd]
      simp [ih hxs]
    · have hd : decide (x.1 < now) = false := by simpa using hp
      rw [List.dropWhile_cons, List.filter_cons, hd]
      simp only [Bool.not_false, if_true, Bool.false_eq_true, if_false]
      have hall : ∀ a ∈ xs, (!decide (a.1 < now)) = true := by
        intro a ha
        have hle := hx a ha
        simp only [Bool.not_eq_true', decide_eq_false_iff_not, not_lt]
        rcases hle with hlt | ⟨heq, _⟩
        · exact le_of_lt (lt_of_le_of_lt (not_lt.1 hp) hlt)
        · exact heq ▸ not_lt.1 hp
      rw [List.filter_eq_self.2 hall]

theorem drop_takeWhile_length (p : (Time × Glet) → Bool)
    (l : List (Time × Glet)) :
    l.drop (l.takeWhile p).length = l.dropWhile p := by
  nth_rewrite 2 [← List.takeWhile_append_dropWhile (p := p) (l := l)]
  exact List.drop_left _ _

theorem check_paused_characterization (now : Time) (skip : Bool) (s : Sched)
    (h : s.timed_paused.Sorted tgLe) :
    (check_paused now skip s).timed_paused
        = s.timed_paused.filter (fun e => !decide (e.1 < now)) ∧
    (check_paused now skip s).to_run
        = s.to_run
            ++ (s.timed_paused.filter (fun e => decide (e.1 < now))).map Prod.snd
            ++ (if skip then [] else s.paused) := by
  have htake : s.timed_paused.take (bisect_at now s.timed_paused)
      = s.timed_paused.takeWhile (fun e => decide (e.1 < now)) :=
    (List.prefix_iff_eq_take.1 (List.takeWhile_prefix _)).symm
  have hdrop : s.timed_paused.drop (bisect_at now s.timed_paused)
      = s.timed_paused.dropWhile (fun e => decide (e.1 < now)) :=
    drop_takeWhile_length _ _
  constructor
  · show s.timed_paused.drop (bisect_at now s.timed_paused) = _
    rw [hdrop, dropWhile_eq_filter_of_sorted now _ h]
  · show s.to_run ++ (s.timed_paused.take (bisect_at now s.timed_paused)).map
        Prod.snd ++ (if skip then [] else s.paused) = _
    rw [htake, takeWhile_eq_filter_of_sorted now _ h]

theorem stepOp_timed_sorted (op : Op) (s : Sched) (log : List Glet)
    (h : s.timed_paused.Sorted tgLe) :
    (stepOp op (s, log)).1.timed_paused.Sorted tgLe := by
  cases op with
  | sched g => exact h
  | schedAt t g => exact insort_sorted _ _ h
  | schedTop g => exact h
  | checkPaused now skip => exact timed_sorted_drop _ h
  | eventWake g => exact h
  | pollerTransfer => exact h
  | dispatch =>
      rcases hto : s.to_run with _ | ⟨g, rest⟩
      · simpa [stepOp, hto] using h
      · simpa [stepOp, hto] using h

theorem runOps_timed_sorted (ops : List Op) :
    ∀ (s : Sched) (log : List Glet), s.timed_paused.Sorted tgLe →
      (runOps ops (s, log)).1.timed_paused.Sorted tgLe := by
  induction ops with
  | nil => intro s log h; exact h
  | cons op ops ih =>
      intro s log h
      rw [runOps_cons]
      rcases hstep : stepOp op (s, log) with ⟨s1, log1⟩
      have := stepOp_timed_sorted op s log h
      rw [hstep] at this
      exact ih s1 log1 this

/-- C6, counterexample to the claim as stated: a timed-pending entry whose
wake-time equals the current time is not moved to the ready queue by
_check_paused. With now = 5 and the single pending entry (5, 7), the entry
stays pending and greenlet 7 is not made ready: the bisect probe
(time.time(), None) compares below (5, 7), so the code promotes only entries
with wake-time strictly below now, not wake-time less than or equal to now. -/
theorem C6_counterexample :
    (check_paused 5 false ⟨[], [], [(5, 7)], []⟩).timed_paused = [(5, 7)] ∧
    7 ∉ (check_paused 5 false ⟨[], [], [(5, 7)], []⟩).to_run := by
  decide

/-- C6 (amended): the timed-pending list is sorted at every reachable state:
insertion by schedule_at (hence by schedule_in and pause_until, which both
call it) preserves sortedness, and every scheduler operation preserves
sortedness; _check_paused, run by the dispatch loop before each potential
block, moves to the ready queue exactly the entries whose wake-time is
strictly less than the current time (entries with wake-time equal to now stay
pending until a later tick), in order, leaving the remaining entries pending
in order. -/
theorem C6_timed_pending_sorted (t : Time) (g : Glet) (now : Time)
    (skip : Bool) (s : Sched) (ops : List Op) (log : List Glet)
    (h : s.timed_paused.Sorted tgLe) :
    (schedule_at t g s).timed_paused.Sorted tgLe ∧
    (runOps ops (s, log)).1.timed_paused.Sorted tgLe ∧
    (check_paused now skip s).timed_paused
        = s.timed_paused.filter (fun e => !decide (e.1 < now)) ∧
    (check_paused now skip s).to_run
        = s.to_run
            ++ (s.timed_paused.filter (fun e => decide (e.1 < now))).map Prod.snd
            ++ (if skip then [] else s.paused) :=
  ⟨insort_sorted _ _ h, runOps_timed_sorted ops s log h,
    (check_paused_characterization now skip s h).1,
    (check_paused_characterization now skip s h).2⟩

/-- Witness for C6: the amended theorem applied to a concrete sorted pending
list, with the promotion equations evaluated. -/
theorem C6_witness :
    (schedule_at 3 1 ⟨[], [9], [(2, 5), (4, 0)], []⟩).timed_paused.Sorted tgLe ∧
    (check_paused 3 false ⟨[], [9], [(2, 5), (4, 0)], []⟩).timed_paused
      = [(4, 0)] ∧
    (check_paused 3 false ⟨[], [9], [(2, 5), (4, 0)], []⟩).to_run = [5, 9] := by
  have h := C6_timed_pending_sorted 3 1 3 false
      ⟨[], [9], [(2, 5), (4, 0)], []⟩ [] [] (by decide)
  refine ⟨h.1, ?_, ?_⟩
  · rw [h.2.2.1]; decide
  · rw [h.2.2.2]; decide

/-- Repeated dispatching pops the ready queue from the front, in order: after
k dispatch iterations the first k ready greenlets have run, in queue order. -/
theorem runOps_dispatches (k : Nat) : ∀ (s : Sched) (log : List Glet),
    runOps (List.replicate k .dispatch) (s, log)
      = ({ s with to_run := s.to_run.drop k }, log ++ s.to_run.take k) := by
  induction k with
  | zero => intro s log; simp [runOps]
  | succ k ih =>
      intro s log
      rw [List.replicate_succ, runOps_cons]
      rcases hto : s.to_run with _ | ⟨g, rest⟩
      · have hstep : stepOp Op.dispatch (s, log) = (s, log) := by
          simp [stepOp, hto]
        rw [hstep, ih s log, hto]
        simp
      · have hstep : stepOp Op.dispatch (s, log)
            = ({ s with to_run := rest }, log ++ [g]) := by
          simp [stepOp, hto]
        rw [hstep, ih { s with to_run := rest } (log ++ [g])]
        simp

/-- C7: schedule_to_top inserts at the very front of the ready queue; two
calls in a row (X then Y) leave the queue as Y, X, then everything that was
already there, and the subsequent dispatches run exactly in that order (Y
before X, both before anything that was already enqueued). -/
theorem C7_schedule_to_top (X Y : Glet) (s : Sched) (k : Nat) :
    (schedule_to_top Y (schedule_to_top X s)).to_run = Y :: X :: s.to_run ∧
    (runOps (List.replicate k .dispatch)
        (schedule_to_top Y (schedule_to_top X s), [])).2
      = (Y :: X :: s.to_run).take k := by
  refine ⟨rfl, ?_⟩
  rw [runOps_dispatches]
  simp [schedule_to_top]

/-- C9: schedule_recurring with a dead greenlet raises TypeError immediately
and schedules nothing: the scheduler state, in particular the timed-pending
list and the ready queue, is exactly what it was before the call. -/
theorem C9_dead_greenlet (interval : Time) (target : Greenlet)
    (starting_at now : Time) (wrapper : Glet) (s : Sched)
    (h : target.dead = true) :
    schedule_recurring_glet interval target starting_at now wrapper s
      = (s, some SchedErr.deadGreenletTypeError) := by
  unfold schedule_recurring_glet
  simp [h]

/-- Witness for C9: a concrete dead greenlet is rejected and the concrete
scheduler state is unchanged. -/
theorem C9_witness :
    schedule_recurring_glet 1 ⟨4, true⟩ 0 100 9 ⟨[2], [3], [(7, 5)], []⟩
      = (⟨[2], [3], [(7, 5)], []⟩, some SchedErr.deadGreenletTypeError) :=
  C9_dead_greenlet 1 ⟨4, true⟩ 0 100 9 ⟨[2], [3], [(7, 5)], []⟩ rfl

/-- C1: with interval 1 and starting_at 0, the spec expects target
invocations at times 1, 2, 3; the code schedules wrapper invocations 0, 1, 2
at wake times 1, 1, 2, because line 163 re-arms the next invocation at the
current invocation timestamp `tstamp` instead of `tstamp + interval`: every
run after the first fires one interval early (the second immediately).
The maxtimes guard itself does stop after maxtimes = 3 target runs. -/
theorem C1_recurring_rearm_eval :
    (recurringSched 1 0 0).1 = 1 ∧
    (recurringSched 1 0 1).1 = 1 ∧
    (recurringSched 1 0 2).1 = 2 ∧
    (recurringSched 1 0 1).1 ≠ 0 + 2 * 1 ∧
    recurringRuns 3 0 = true ∧ recurringRuns 3 2 = true ∧
    recurringRuns 3 3 = false := by
  decide

/-- C5: evaluation at the failing input. With descriptormap[fd] given as
[stale ref, live waiter 1] and a readable event, the loop pops the stale
entry at index 0, but the enumerate index then moves to 1 and skips the live
waiter (now at index 0): the live waiter is dropped from socks and its read
Signal does not fire that tick, even though it stays registered. With two
stale refs, the second survives the lookup entirely. With no stale entries
the scan collects every live waiter in order and both get their Signal. -/
theorem C5_prune_skips_eval :
    pruneScan [⟨none⟩, ⟨some ⟨1, false⟩⟩] = ([⟨some ⟨1, false⟩⟩], []) ∧
    hit_poller_fd true false [⟨none⟩, ⟨some ⟨1, false⟩⟩]
      = ([⟨some ⟨1, false⟩⟩], [], []) ∧
    (pruneScan [⟨none⟩, ⟨none⟩]).1 = [⟨none⟩] ∧
    pruneScan [⟨some ⟨1, false⟩⟩, ⟨some ⟨2, false⟩⟩]
      = ([⟨some ⟨1, false⟩⟩, ⟨some ⟨2, false⟩⟩], [⟨1, false⟩, ⟨2, false⟩]) ∧
    hit_poller_fd true true [⟨some ⟨1, false⟩⟩, ⟨some ⟨2, false⟩⟩]
      = ([⟨some ⟨1, false⟩⟩, ⟨some ⟨2, false⟩⟩], [1, 2], [1, 2]) := by
  decide

/-- C2: evaluation at the failing input. An attempt failing with
SSL_ERROR_WANT_WRITE makes _with_retry call _wait_event with write=False
(ssl.py line 329), and _wait_event with write=False registers poller
interest for the READ direction (INMASK, not OUTMASK) and waits on the
read-ready Signal — the claim requires the write direction for a
write-blocked operation. WANT_READ is handled with the read direction as
claimed, and any other SSLError propagates unchanged. -/
theorem C2_want_write_waits_read_eval :
    (with_retry (α := Nat) none 0 [(0, Attempt.wantWrite), (1, Attempt.ok 7)])
      = (RetryResult.ok 7, [(false, 0, none)]) ∧
    wait_event_setup false = ⟨true, false, true, SigKind.readable⟩ ∧
    wait_event_setup true = ⟨false, true, true, SigKind.writable⟩ ∧
    (with_retry (α := Nat) none 0 [(0, Attempt.wantRead), (1, Attempt.ok 7)])
      = (RetryResult.ok 7, [(false, 0, none)]) ∧
    (with_retry (α := Nat) none 0 [(0, Attempt.otherError 42)])
      = (RetryResult.propagated 42, []) := by
  decide

/-- C8, counterexample to the claim as stated: with timeout 5 taken at time
0 the absolute deadline is 5; querying the remaining time exactly at time 5
(remaining time equal to zero) does not raise the timeout error but returns
a zero remaining time, because ssl.py line 346 tests `timeout < 0`, not
less-than-or-equal. -/
theorem C8_counterexample :
    timeout_now (timeout_init (some 5) 0) 5 = Except.ok (some 0) := by
  simp [timeout_init, timeout_now]

theorem with_retry_waits_bound {α : Type} (d : Time)
    (trace : List (Time × Attempt α)) :
    (with_retry_go (some d) trace).2.Forall
      (fun w => w.2.2 = some (d - w.2.1) ∧ w.2.1 ≤ d) := by
  induction trace with
  | nil => simp [with_retry_go]
  | cons e rest ih =>
      rcases e with ⟨t, a⟩
      cases a with
      | ok v => simp [with_retry_go]
      | otherError code => simp [with_retry_go]
      | wantRead =>
          by_cases hlt : d - t < 0
          · simp [with_retry_go, timeout_now, hlt]
          · simp only [with_retry_go, timeout_now, hlt, if_false]
            refine List.forall_cons _ _ _ |>.2
              ⟨⟨rfl, Int.sub_nonneg.1 (not_lt.1 hlt)⟩, ih⟩
      | wantWrite =>
          by_cases hlt : d - t < 0
          · simp [with_retry_go, timeout_now, hlt]
          · simp only [with_retry_go, timeout_now, hlt, if_false]
            refine List.forall_cons _ _ _ |>.2
              ⟨⟨rfl, Int.sub_nonneg.1 (not_lt.1 hlt)⟩, ih⟩

theorem with_retry_none_no_timeout {α : Type}
    (trace : List (Time × Attempt α)) :
    (with_retry_go (α := α) none trace).1 ≠ RetryResult.timedOut := by
  induction trace with
  | nil => simp [with_retry_go]
  | cons e rest ih =>
      rcases e with ⟨t, a⟩
      cases a with
      | ok v => simp [with_retry_go]
      | otherError code => simp [with_retry_go]
      | wantRead => simpa [with_retry_go, timeout_now] using ih
      | wantWrite => simpa [with_retry_go, timeout_now] using ih

/-- C8 (amended): the absolute deadline is computed once, at _timeout
construction, as t0 + timeout; a None timeout yields no deadline, and the
remaining-time query then always returns None and never raises; with a
deadline, every query recomputes the remaining time against that one fixed
deadline and raises the timeout error exactly when the remaining time is
strictly negative (a remaining time of exactly zero is still returned, and
the following Signal wait, given zero time, then enforces the deadline);
in the retry loop every wait takes its remaining time from the fixed
deadline and is entered no later than the deadline, so the operation is
never retried past it. -/
theorem C8_deadline (T t0 t : Time) (trace : List (Time × Attempt Nat)) :
    timeout_init (some T) t0 = some (t0 + T) ∧
    timeout_init none t0 = none ∧
    timeout_now (timeout_init none t0) t = Except.ok none ∧
    timeout_now (timeout_init (some T) t0) t
      = (if t0 + T - t < 0 then Except.error ()
         else Except.ok (some (t0 + T - t))) ∧
    (with_retry (some T) t0 trace).2.Forall
      (fun w => w.2.2 = some (t0 + T - w.2.1) ∧ w.2.1 ≤ t0 + T) ∧
    (with_retry none t0 trace).1 ≠ RetryResult.timedOut := by
  refine ⟨rfl, rfl, rfl, rfl, ?_, ?_⟩
  · exact with_retry_waits_bound (t0 + T) trace
  · exact with_retry_none_no_timeout trace

theorem eraseIdx_at_append (front : List HandlerRef) (h : HandlerRef)
    (rest : List HandlerRef) :
    (front ++ h :: rest).eraseIdx front.length = front ++ rest := by
  induction front with
  | nil => rfl
  | cons f fr ih =>
      simp only [List.cons_append, List.length_cons, List.eraseIdx_cons_succ,
        ih]

theorem purge_foldl_general (hs : List HandlerRef) :
    ∀ (n : Nat) (front : List HandlerRef), front.length = n →
    ((((hs.enumFrom n).filter (fun p => !p.2.alive)).map Prod.fst).reverse).foldl
        (fun l i => l.eraseIdx i) (front ++ hs)
      = front ++ hs.filter (fun h => h.alive) := by
  induction hs with
  | nil => intro n front hlen; simp
  | cons h t ih =>
      intro n front hlen
      by_cases ha : h.alive
      · have hfc : ((h :: t).enumFrom n).filter (fun p => !p.2.alive)
            = (t.enumFrom (n + 1)).filter (fun p => !p.2.alive) := by
          simp [List.enumFrom, List.filter_cons, ha]
        rw [hfc]
        have hsplit : front ++ h :: t = (front ++ [h]) ++ t := by simp
        rw [hsplit, ih (n + 1) (front ++ [h]) (by simp [hlen])]
        simp [List.filter_cons, ha]
      · have hfc : ((h :: t).enumFrom n).filter (fun p => !p.2.alive)
            = (n, h) :: (t.enumFrom (n + 1)).filter (fun p => !p.2.alive) := by
          simp [List.enumFrom, List.filter_cons, ha]
        rw [hfc]
        simp only [List.map_cons, List.reverse_cons, List.foldl_append,
          List.foldl_cons, List.foldl_nil]
        have hsplit : front ++ h :: t = (front ++ [h]) ++ t := by simp
        rw [hsplit, ih (n + 1) (front ++ [h]) (by simp [hlen])]
        have hstep : (front ++ [h]) ++ t.filter (fun x => x.alive)
            = front ++ h :: t.filter (fun x => x.alive) := by simp
        rw [hstep, ← hlen, eraseIdx_at_append]
        simp [List.filter_cons, ha]

/-- The net effect of _purge_exception_handlers: exactly the entries whose
weak target is gone are removed, preserving the order of the rest. -/
theorem purge_eq_filter (hs : List HandlerRef) :
    purge_exception_handlers hs = hs.filter (fun h => h.alive) := by
  have h := purge_foldl_general hs 0 [] rfl
  simpa [purge_exception_handlers, List.enum] using h

theorem consume_loop_eq (t : ExcTriple) (l : List HandlerRef) :
    consume_loop t l
      = (l.filter (fun h => h.alive)).map (fun h => (h.id, t)) := by
  induction l with
  | nil => rfl
  | cons h hs ih =>
      by_cases ha : h.alive
      · by_cases hr : h.raises
        · simp [consume_loop, handler_call, ha, hr, List.filter_cons, ih]
        · simp [consume_loop, handler_call, ha, hr, List.filter_cons, ih]
      · simp [consume_loop, handler_call, ha, List.filter_cons, ih]

/-- C3: on an uncaught exception escaping a dispatched greenlet, handlers
whose weak target is gone are purged before delivery (first equation) and
are never invoked; every remaining handler is invoked exactly once, in
registration order, with the (class, instance, traceback) triple (second
equation — this includes handlers that themselves raise: the raise is
squashed by the try/except around each call, so later handlers are still
invoked); and the dispatch loop dispatches every ready greenlet in order no
matter which of them raise (third equation): a task failure never
terminates the loop. -/
theorem C3_exception_containment (hs : List HandlerRef) (t : ExcTriple)
    (behave : Glet → Option ExcTriple) (q : List Glet) :
    (consume_exception hs t).1 = hs.filter (fun h => h.alive) ∧
    (consume_exception hs t).2
      = (hs.filter (fun h => h.alive)).map (fun h => (h.id, t)) ∧
    (mainloop_steps behave hs q).1 = q := by
  refine ⟨purge_eq_filter hs, ?_, ?_⟩
  · show consume_loop t (purge_exception_handlers hs) = _
    rw [purge_eq_filter, consume_loop_eq, List.filter_filter]
    simp
  · induction q with
    | nil => rfl
    | cons g rest ih =>
        cases hb : behave g <;> simp [mainloop_steps, hb, ih]

theorem event_wake_awoken_nodup (g : Glet) (s : Sched)
    (h : s.awoken_from_events.Nodup) :
    (event_wake g s).awoken_from_events.Nodup := by
  unfold event_wake
  by_cases hg : g ∈ s.awoken_from_events
  · simpa [hg] using h
  · simp [hg, List.nodup_append, h]

theorem wake_all_awoken_nodup (gs : List Glet) :
    ∀ s : Sched, s.awoken_from_events.Nodup →
      (wake_all gs s).awoken_from_events.Nodup := by
  induction gs with
  | nil => intro s h; exact h
  | cons g gs ih =>
      intro s h
      exact ih (event_wake g s) (event_wake_awoken_nodup g s h)

theorem wake_all_to_run (gs : List Glet) :
    ∀ s : Sched, (wake_all gs s).to_run = s.to_run := by
  induction gs with
  | nil => intro s; rfl
  | cons g gs ih =>
      intro s
      show (wake_all gs (event_wake g s)).to_run = s.to_run
      rw [ih (event_wake g s)]
      unfold event_wake
      by_cases hg : g ∈ s.awoken_from_events <;> simp [hg]

/-- C10: greenlets awoken by Signal firings accumulate in
state.awoken_from_events, a set, between polls: no matter how many events
fire for the same greenlet within one poll tick (gs may repeat a greenlet
arbitrarily, for example when a descriptor is both readable and writable or
several descriptors wake the same task), the set stays duplicate-free, so
the transfer at the end of _hit_poller appends each awoken greenlet to the
ready queue at most once; the set is emptied by the transfer. -/
theorem C10_awoken_set (gs : List Glet) (s : Sched)
    (h : s.awoken_from_events.Nodup) :
    (hit_poller_transfer (wake_all gs s)).awoken_from_events = [] ∧
    (hit_poller_transfer (wake_all gs s)).to_run
      = s.to_run ++ (wake_all gs s).awoken_from_events ∧
    (wake_all gs s).awoken_from_events.Nodup ∧
    ∀ g : Glet, (wake_all gs s).awoken_from_events.count g ≤ 1 := by
  have hnd := wake_all_awoken_nodup gs s h
  refine ⟨rfl, ?_, hnd, ?_⟩
  · show (wake_all gs s).to_run ++ _ = _
    rw [wake_all_to_run gs s]
  · exact fun g => List.nodup_iff_count_le_one.1 hnd g

theorem abElems_append (A B : Glet) (l1 l2 : List Glet) :
    abElems A B (l1 ++ l2) = abElems A B l1 ++ abElems A B l2 := by
  unfold abElems
  exact List.filter_append _ _

theorem abElems_nil_of (A B : Glet) (l : List Glet) (hA : A ∉ l)
    (hB : B ∉ l) : abElems A B l = [] := by
  rw [abElems, List.filter_eq_nil_iff]
  intro g hg
  simp only [Bool.or_eq_true, beq_iff_eq, not_or]
  exact ⟨fun e => hA (e ▸ hg), fun e => hB (e ▸ hg)⟩

theorem fifo_phase_congr {A B : Glet} {q1 q2 log : List Glet}
    (h : abElems A B q2 = abElems A B q1) :
    fifo_phase A B q1 log → fifo_phase A B q2 log := by
  intro hp
  unfold fifo_phase at *
  rw [h]
  exact hp

theorem not_mem_map_snd_insort {x : Glet} {e : Time × Glet}
    {l : List (Time × Glet)} (hx : x ∉ l.map Prod.snd) (hxe : x ≠ e.2) :
    x ∉ (insort e l).map Prod.snd := by
  intro hmem
  rcases List.mem_map.1 hmem with ⟨p, hp, hps⟩
  rcases mem_insort.1 hp with rfl | hp2
  · exact hxe hps.symm
  · exact hx (List.mem_map.1 (List.mem_map.2 ⟨p, hp2, hps⟩) |> List.mem_map.2)

theorem not_mem_map_snd_take {x : Glet} (n : Nat) {l : List (Time × Glet)}
    (hx : x ∉ l.map Prod.snd) : x ∉ (l.take n).map Prod.snd := by
  intro hmem
  rcases List.mem_map.1 hmem with ⟨p, hp, hps⟩
  exact hx (List.mem_map.2 ⟨p, List.take_subset n l hp, hps⟩)

theorem not_mem_map_snd_drop {x : Glet} (n : Nat) {l : List (Time × Glet)}
    (hx : x ∉ l.map Prod.snd) : x ∉ (l.drop n).map Prod.snd := by
  intro hmem
  rcases List.mem_map.1 hmem with ⟨p, hp, hps⟩
  exact hx (List.mem_map.2 ⟨p, List.drop_subset n l hp, hps⟩)

theorem fifo_inv_step (A B : Glet) (hAB : A ≠ B) (op : Op) (s : Sched)
    (log : List Glet) (hop : A ∉ opTouches op ∧ B ∉ opTouches op)
    (h : fifo_inv A B s log) :
    fifo_inv A B (stepOp op (s, log)).1 (stepOp op (s, log)).2 := by
  obtain ⟨hTA, hTB, hWA, hWB, hph⟩ := h
  cases op with
  | sched g =>
      have hgA : A ≠ g := by simpa [opTouches] using hop.1
      have hgB : B ≠ g := by simpa [opTouches] using hop.2
      refine ⟨hTA, hTB, hWA, hWB, fifo_phase_congr ?_ hph⟩
      show abElems A B (queueView (schedule g s)) = _
      have hg : abElems A B [g] = [] :=
        abElems_nil_of _ _ _ (by simpa using hgA) (by simpa using hgB)
      simp [queueView, schedule, abElems_append, hg]
  | schedAt t g =>
      have hgA : A ≠ g := by simpa [opTouches] using hop.1
      have hgB : B ≠ g := by simpa [opTouches] using hop.2
      exact ⟨not_mem_map_snd_insort hTA hgA, not_mem_map_snd_insort hTB hgB,
        hWA, hWB, hph⟩
  | schedTop g =>
      have hgA : A ≠ g := by simpa [opTouches] using hop.1
      have hgB : B ≠ g := by simpa [opTouches] using hop.2
      refine ⟨hTA, hTB, hWA, hWB, fifo_phase_congr ?_ hph⟩
      show abElems A B (queueView (schedule_to_top g s)) = _
      have hgp : (g == A || g == B) = false := by
        simp [hgA.symm, hgB.symm]
      simp [queueView, schedule_to_top, abElems, List.filter_cons, hgp]
  | checkPaused now skip =>
      have hfA : A ∉ (s.timed_paused.take (bisect_at now s.timed_paused)).map
          Prod.snd := not_mem_map_snd_take _ hTA
      have hfB : B ∉ (s.timed_paused.take (bisect_at now s.timed_paused)).map
          Prod.snd := not_mem_map_snd_take _ hTB
      refine ⟨not_mem_map_snd_drop _ hTA, not_mem_map_snd_drop _ hTB,
        hWA, hWB, fifo_phase_congr ?_ hph⟩
      show abElems A B (queueView (check_paused now skip s)) = _
      have hf : abElems A B ((s.timed_paused.take
          (bisect_at now s.timed_paused)).map Prod.snd) = [] :=
        abElems_nil_of _ _ _ hfA hfB
      have hfA2 : A ∉ (s.timed_paused.map Prod.snd).take
          (bisect_at now s.timed_paused) :=
        fun hm => hTA (List.take_subset _ _ hm)
      have hfB2 : B ∉ (s.timed_paused.map Prod.snd).take
          (bisect_at now s.timed_paused) :=
        fun hm => hTB (List.take_subset _ _ hm)
      have hf2 : abElems A B ((s.timed_paused.map Prod.snd).take
          (bisect_at now s.timed_paused)) = [] :=
        abElems_nil_of _ _ _ hfA2 hfB2
      cases skip with
      | true => simp [queueView, check_paused, abElems_append, hf, hf2]
      | false => simp [queueView, check_paused, abElems_append, hf, hf2]
  | eventWake g =>
      have hgA : A ≠ g := by simpa [opTouches] using hop.1
      have hgB : B ≠ g := by simpa [opTouches] using hop.2
      have hwa : A ∉ (event_wake g s).awoken_from_events := by
        unfold event_wake
        by_cases hg : g ∈ s.awoken_from_events
        · simpa [hg] using hWA
        · simp [hg, hWA, hgA]
      have hwb : B ∉ (event_wake g s).awoken_from_events := by
        unfold event_wake
        by_cases hg : g ∈ s.awoken_from_events
        · simpa [hg] using hWB
        · simp [hg, hWB, hgB]
      exact ⟨hTA, hTB, hwa, hwb, hph⟩
  | pollerTransfer =>
      refine ⟨hTA, hTB, by simp [stepOp, hit_poller_transfer], by
        simp [stepOp, hit_poller_transfer], fifo_phase_congr ?_ hph⟩
      show abElems A B (queueView (hit_poller_transfer s)) = _
      have hw : abElems A B s.awoken_from_events = [] :=
        abElems_nil_of _ _ _ hWA hWB
      simp [queueView, hit_poller_transfer, abElems_append, hw]
  | dispatch =>
      rcases hto : s.to_run with _ | ⟨g, rest⟩
      · have hstep : stepOp Op.dispatch (s, log) = (s, log) := by
          simp [stepOp, hto]
        rw [hstep]
        exact ⟨hTA, hTB, hWA, hWB, hph⟩
      · have hstep : stepOp Op.dispatch (s, log)
            = ({ s with to_run := rest }, log ++ [g]) := by
          simp [stepOp, hto]
        rw [hstep]
        refine ⟨hTA, hTB, hWA, hWB, ?_⟩
        have hqv : queueView s = g :: queueView { s with to_run := rest } := by
          simp [queueView, hto]
        by_cases hgp : (g == A || g == B) = true
        · have hcons : abElems A B (queueView s)
              = g :: abElems A B (queueView { s with to_run := rest }) := by
            simp only [abElems]
            rw [hqv, List.filter_cons, hgp]
            simp
          rcases hph with ⟨he, hAlog, hBlog⟩ | ⟨he, hAlog, hBlog⟩
            | ⟨he, pre, suf, hlog, hApre, hBpre⟩
          · rw [hcons] at he
            have hgA : g = A := (List.cons_eq_cons.1 he).1
            have htl : abElems A B (queueView { s with to_run := rest })
                = [B] := (List.cons_eq_cons.1 he).2
            refine Or.inr (Or.inl ⟨htl, ?_, ?_⟩)
            · simp [hgA]
            · simp [hBlog, hgA, Ne.symm hAB]
          · rw [hcons] at he
            have hgB : g = B := (List.cons_eq_cons.1 he).1
            have htl : abElems A B (queueView { s with to_run := rest })
                = [] := (List.cons_eq_cons.1 he).2
            refine Or.inr (Or.inr ⟨htl, log, [], ?_, hAlog, hBlog⟩)
            simp [hgB]
          · rw [hcons] at he
            exact absurd he (List.cons_ne_nil _ _)
        · have hgpf : (g == A || g == B) = false := by
            simpa using hgp
          have hsame : abElems A B (queueView { s with to_run := rest })
              = abElems A B (queueView s) := by
            simp only [abElems]
            rw [hqv, List.filter_cons, hgpf]
            simp
          have hgA : g ≠ A := by
            intro e
            exact hgp (by simp [e])
          have hgB : g ≠ B := by
            intro e
            exact hgp (by simp [e])
          rcases hph with ⟨he, hAlog, hBlog⟩ | ⟨he, hAlog, hBlog⟩
            | ⟨he, pre, suf, hlog, hApre, hBpre⟩
          · exact Or.inl ⟨hsame.trans he, by simp [hAlog, Ne.symm hgA],
              by simp [hBlog, Ne.symm hgB]⟩
          · exact Or.inr (Or.inl ⟨hsame.trans he, by simp [hAlog],
              by simp [hBlog, Ne.symm hgB]⟩)
          · refine Or.inr (Or.inr ⟨hsame.trans he, pre, suf ++ [g], ?_,
              hApre, hBpre⟩)
            rw [hlog]
            simp

theorem fifo_inv_run (A B : Glet) (hAB : A ≠ B) (ops : List Op) :
    ∀ (s : Sched) (log : List Glet),
      (∀ op ∈ ops, A ∉ opTouches op ∧ B ∉ opTouches op) →
      fifo_inv A B s log →
      fifo_inv A B (runOps ops (s, log)).1 (runOps ops (s, log)).2 := by
  induction ops with
  | nil => intro s log _ h; exact h
  | cons op ops ih =>
      intro s log hops h
      rw [runOps_cons]
      rcases hstep : stepOp op (s, log) with ⟨s1, log1⟩
      have h1 := fifo_inv_step A B hAB op s log
        (hops op (List.mem_cons_self op ops)) h
      rw [hstep] at h1
      exact ih s1 log1 (fun o ho => hops o (List.mem_cons_of_mem op ho)) h1

/-- C4: greenlets A and B scheduled via the immediate path (schedule) in
that order, from a state containing neither, are dispatched in FIFO order
under any later sequence of scheduler operations that never names A or B:
whenever B appears in the dispatch log, A appears strictly before the first
occurrence of B. Because the runtime is one thread and control transfer is
cooperative, the greenlet popped at line 217 runs its whole slice before
the dispatcher regains control and pops the next one, so A completes its
first run before B starts its first run. -/
theorem C4_schedule_fifo (A B : Glet) (s0 : Sched) (ops : List Op)
    (hAB : A ≠ B) (hA : absent A s0) (hB : absent B s0)
    (hops : ∀ op ∈ ops, A ∉ opTouches op ∧ B ∉ opTouches op)
    (hmem : B ∈ (runOps ops (schedule B (schedule A s0), [])).2) :
    ∃ pre suf,
      (runOps ops (schedule B (schedule A s0), [])).2 = pre ++ B :: suf ∧
      A ∈ pre ∧ B ∉ pre := by
  obtain ⟨hA1, hA2, hA3, hA4⟩ := hA
  obtain ⟨hB1, hB2, hB3, hB4⟩ := hB
  have hinit : fifo_inv A B (schedule B (schedule A s0)) [] := by
    refine ⟨hA3, hB3, hA4, hB4, Or.inl ⟨?_, by simp, by simp⟩⟩
    show abElems A B (queueView (schedule B (schedule A s0))) = [A, B]
    have h0 : abElems A B s0.to_run = [] := abElems_nil_of _ _ _ hA1 hB1
    have h1 : abElems A B s0.paused = [] := abElems_nil_of _ _ _ hA2 hB2
    have h2 : abElems A B [A] = [A] := by simp [abElems]
    have h3 : abElems A B [B] = [B] := by simp [abElems]
    have h4 : abElems A B [A, B] = [A, B] := by simp [abElems]
    simp [queueView, schedule, abElems_append, h0, h1, h2, h3, h4]
  have hfin := fifo_inv_run A B hAB ops (schedule B (schedule A s0)) []
    hops hinit
  rcases hfin.2.2.2.2 with ⟨_, _, hBlog⟩ | ⟨_, _, hBlog⟩
    | ⟨_, pre, suf, hlog, hApre, hBpre⟩
  · exact absurd hmem hBlog
  · exact absurd hmem hBlog
  · exact ⟨pre, suf, hlog, hApre, hBpre⟩

/-- Witness for C4: greenlets 1 then 2 scheduled immediately, promoted by
_check_paused and dispatched twice, produce the log [1, 2]: greenlet 1 runs
strictly before greenlet 2. -/
theorem C4_witness :
    ∃ pre suf,
      (runOps [Op.checkPaused 0 false, Op.dispatch, Op.dispatch]
          (schedule 2 (schedule 1 ⟨[], [], [], []⟩), [])).2
        = pre ++ 2 :: suf ∧ 1 ∈ pre ∧ 2 ∉ pre :=
  C4_schedule_fifo 1 2 ⟨[], [], [], []⟩
    [Op.checkPaused 0 false, Op.dispatch, Op.dispatch]
    (by decide) (by decide) (by decide) (by decide) (by decide)

/-- Witness for C10: three event firings inside one tick, two of them for
the same greenlet, enqueue that greenlet only once and clear the set. -/
theorem C10_witness :
    (hit_poller_transfer
        (wake_all [5, 5, 3] ⟨[9], [], [], []⟩)).awoken_from_events = [] ∧
    (wake_all [5, 5, 3] (⟨[9], [], [], []⟩ : Sched)).awoken_from_events.count 5
      ≤ 1 :=
  ⟨(C10_awoken_set [5, 5, 3] ⟨[9], [], [], []⟩ (by decide)).1,
    (C10_awoken_set [5, 5, 3] ⟨[9], [], [], []⟩ (by decide)).2.2.2 5⟩

end Greenhouse

